import Mathlib

/-!
Verification of the room/session lifecycle manager of the flow-server
repository (`sessionService.js` / `socketService.js`).

The data model and the operations are a shallow embedding of the source:

* a room is the object built by `SessionService.createRoom`
  (`creatorUid`, `worker`, `router`, `transports`, `producers`, `consumers`,
  `participants`);
* the global room map `this.rooms` is an association list `RoomId × Room`
  reflecting a JS object's insertion-ordered keys;
* opaque media-engine handles (worker, router, transport, producer, consumer)
  are identified by their numeric ids; their creation results are passed to
  the operations as parameters, exactly where the source awaits the engine;
* observable side effects (`close()` calls on engine handles, socket.io
  emissions, acknowledgement callbacks) are reified as an `Event` list
  returned next to the new state, in the order the source performs them.
-/

namespace FlowServer

/-- User identifier (the `uid` column of the users table). -/
abbrev Uid := Nat

/-- Room code; a 6-digit numeric string in the source, modelled numerically. -/
abbrev RoomId := Nat

/-- Identifier of an opaque media-engine object (worker, router, transport,
producer or consumer). -/
abbrev HandleId := Nat

/-- Opaque RTP parameters (content never inspected by the session layer). -/
abbrev RtpParameters := Nat

/-- Opaque RTP capabilities, only ever passed to `router.canConsume`. -/
abbrev RtpCapabilities := Nat

/-- Transport direction, the `direction` field of a transport entry. -/
inductive Direction
| send
| recv
deriving DecidableEq

/-- Media kind (`"audio"` or `"video"`). -/
inductive MediaKind
| audio
| video
deriving DecidableEq

/-- Authenticated identity bound to a connection (`socket.user`). -/
structure Identity where
  uid : Uid
  nickname : String
deriving DecidableEq

/-- An element of `room.transports`: `{ uid, transport, direction }`, with the
engine transport represented by its id. -/
structure TransportEntry where
  uid : Uid
  id : HandleId
  direction : Direction
deriving DecidableEq

/-- An element of `room.producers`:
`{ uid, producer, id: producer.id, rtpParameters, kind }`. -/
structure ProducerEntry where
  uid : Uid
  id : HandleId
  rtpParameters : RtpParameters
  kind : MediaKind
deriving DecidableEq

/-- An element of `room.consumers`: `{ uid, consumer, producerId, kind }`. -/
structure ConsumerEntry where
  uid : Uid
  id : HandleId
  producerId : HandleId
  kind : MediaKind
deriving DecidableEq

/-- The room object built by `SessionService.createRoom`. -/
structure Room where
  creatorUid : Uid
  workerId : HandleId
  routerId : HandleId
  transports : List TransportEntry
  producers : List ProducerEntry
  consumers : List ConsumerEntry
  participants : List Uid
deriving DecidableEq

/-- The room registry `this.rooms`: a JS object keyed by room code, modelled
as an insertion-ordered association list. -/
abbrev State := List (RoomId × Room)

/-- Property read `this.rooms[roomId]` (first entry with the given key). -/
def lookupRoom : State → RoomId → Option Room
  | [], _ => none
  | (r', room) :: rest, r => if r' = r then some room else lookupRoom rest r

/-- In-place mutation of the room stored under key `r`. -/
def updateRoom : State → RoomId → (Room → Room) → State
  | [], _, _ => []
  | (r', room) :: rest, r, f =>
    if r' = r then (r', f room) :: updateRoom rest r f
    else (r', room) :: updateRoom rest r f

/-- `delete this.rooms[roomId]`. -/
def removeRoom : State → RoomId → State
  | [], _ => []
  | (r', room) :: rest, r =>
    if r' = r then removeRoom rest r
    else (r', room) :: removeRoom rest r

/-- `Set.prototype.add`: appends only when absent, keeping insertion order. -/
def setAdd (l : List Uid) (u : Uid) : List Uid :=
  if u ∈ l then l else l ++ [u]

/-- Errors thrown by the session service, one constructor per `throw` site. -/
inductive SessionError
| roomNotFound (r : RoomId)
| transportNotFound (id : HandleId)
| producerNotFound (id : HandleId)
| consumerTransportNotFound (u : Uid) (producerId : HandleId)
| cannotConsume (producerId : HandleId)
deriving DecidableEq

/-- Observable side effects, in the order the source performs them.
`newProducerToOthers` is `socket.to(roomId).emit("new-producer", ...)`
(every connection in the room's broadcast group except the sender);
`newProducerToSelf` is `socket.emit("new-producer", ...)` to the requester. -/
inductive Event
| userJoined (r : RoomId) (u : Uid)
| userLeft (r : RoomId) (u : Uid)
| sessionClosed (r : RoomId)
| closeTransport (h : HandleId)
| closeProducer (h : HandleId)
| closeConsumer (h : HandleId)
| closeWorker (h : HandleId)
| callbackProducerId (h : HandleId)
| callbackTransportParams (h : HandleId)
| callbackError (e : SessionError)
| newProducerToOthers (r : RoomId) (pid : HandleId) (k : MediaKind)
| newProducerToSelf (pid : HandleId) (k : MediaKind)
deriving DecidableEq

/-- The fresh room object registered by `createRoom`. -/
def newRoom (creatorUid : Uid) (workerId routerId : HandleId) : Room :=
  { creatorUid := creatorUid, workerId := workerId, routerId := routerId,
    transports := [], producers := [], consumers := [], participants := [] }

/-- `SessionService.createRoom(roomId, creatorUid)`: when the code is already
registered it warns and returns the existing room object; otherwise it
registers a fresh room built around the engine worker/router it created. -/
def createRoom (s : State) (r : RoomId) (creatorUid : Uid)
    (workerId routerId : HandleId) : State × Room :=
  match lookupRoom s r with
  | some room => (s, room)
  | none => (s ++ [(r, newRoom creatorUid workerId routerId)],
             newRoom creatorUid workerId routerId)

/-- `SessionService.join(roomId, user)`: `getRoom` throws when the room is
absent (the socket handler catches it and answers `false`, leaving the state
untouched); otherwise the uid is added to the participant set and
`userJoined` is broadcast to the room. -/
def joinRoom (s : State) (r : RoomId) (u : Uid) : State × List Event :=
  match lookupRoom s r with
  | none => (s, [])
  | some _ =>
      (updateRoom s r (fun rm => { rm with participants := setAdd rm.participants u }),
       [Event.userJoined r u])

/-- Per-room state effect of `SessionService.clearUserData`: every
transport/producer/consumer entry owned by `u` is filtered out. -/
def clearRoomUser (u : Uid) (rm : Room) : Room :=
  { rm with
    transports := rm.transports.filter (fun t => t.uid != u),
    producers := rm.producers.filter (fun p => p.uid != u),
    consumers := rm.consumers.filter (fun c => c.uid != u) }

/-- Per-room close events of `SessionService.clearUserData`: each entry owned
by `u` has its engine handle closed, transports first, then producers, then
consumers — the loop order of the source. -/
def clearRoomEvents (u : Uid) (rm : Room) : List Event :=
  (rm.transports.filter (fun t => t.uid == u)).map (fun t => Event.closeTransport t.id)
    ++ (rm.producers.filter (fun p => p.uid == u)).map (fun p => Event.closeProducer p.id)
    ++ (rm.consumers.filter (fun c => c.uid == u)).map (fun c => Event.closeConsumer c.id)

/-- `SessionService.clearUserData(user)`: iterates every room of the map,
closing and removing all entries owned by the uid. -/
def clearUserData (s : State) (u : Uid) : State × List Event :=
  (s.map (fun p => (p.1, clearRoomUser u p.2)),
   (s.map (fun p => clearRoomEvents u p.2)).flatten)

/-- Loop body of `SessionService.leave(user)` over the keys of `this.rooms`:
for each room containing the uid, remove it from the participant set, run
`clearUserData`, and broadcast `userLeft`. -/
def leaveGo (u : Uid) : List RoomId → State → State × List Event
  | [], s => (s, [])
  | r :: rest, s =>
    match lookupRoom s r with
    | some room =>
      if u ∈ room.participants then
        let s1 := updateRoom s r (fun rm => { rm with participants := rm.participants.erase u })
        let cd := clearUserData s1 u
        let next := leaveGo u rest cd.1
        (next.1, cd.2 ++ Event.userLeft r u :: next.2)
      else leaveGo u rest s
    | none => leaveGo u rest s

/-- `SessionService.leave(user)` (state and event effect; the 3-second
debounced sweep it schedules is a separate trace event, `Op.sweepFire`). -/
def leaveUser (s : State) (u : Uid) : State × List Event :=
  leaveGo u (s.map Prod.fst) s

/-- `SessionService.closeRoom(roomId)`: absent room is a no-op; otherwise
every transport's engine handle is closed, then the worker is closed, then
the room is deleted from the map.  Producer and consumer handles are not
individually closed here. -/
def closeRoomE (s : State) (r : RoomId) : State × List Event :=
  match lookupRoom s r with
  | none => (s, [])
  | some room =>
      (removeRoom s r,
       room.transports.map (fun t => Event.closeTransport t.id)
         ++ [Event.closeWorker room.workerId])

/-- Loop of `SessionService.cleanNoHostRooms` over the keys of `this.rooms`:
each room whose creator is not a participant is closed via `closeRoom`, after
which `sessionClosed` is broadcast to the room. -/
def cleanNoHostGo : List RoomId → State → State × List Event
  | [], s => (s, [])
  | r :: rest, s =>
    match lookupRoom s r with
    | some room =>
      if room.creatorUid ∈ room.participants then cleanNoHostGo rest s
      else
        let cl := closeRoomE s r
        let next := cleanNoHostGo rest cl.1
        (next.1, cl.2 ++ Event.sessionClosed r :: next.2)
    | none => cleanNoHostGo rest s

/-- `SessionService.cleanNoHostRooms()`. -/
def cleanNoHostRooms (s : State) : State × List Event :=
  cleanNoHostGo (s.map Prod.fst) s

/-- Loop of `SessionService.cleanEmptyRooms` over the keys of `this.rooms`:
each room with an empty participant set is closed via `closeRoom`. -/
def cleanEmptyGo : List RoomId → State → State × List Event
  | [], s => (s, [])
  | r :: rest, s =>
    match lookupRoom s r with
    | some room =>
      if room.participants.length = 0 then
        let cl := closeRoomE s r
        let next := cleanEmptyGo rest cl.1
        (next.1, cl.2 ++ next.2)
      else cleanEmptyGo rest s
    | none => cleanEmptyGo rest s

/-- `SessionService.cleanEmptyRooms()`. -/
def cleanEmptyRooms (s : State) : State × List Event :=
  cleanEmptyGo (s.map Prod.fst) s

/-- The debounced sweep scheduled by `leave`:
`await this.cleanNoHostRooms(); await this.cleanEmptyRooms();`.
It runs against whatever the live state is when the timer fires. -/
def sweepE (s : State) : State × List Event :=
  let a := cleanNoHostRooms s
  let b := cleanEmptyRooms a.1
  (b.1, a.2 ++ b.2)

/-- `SessionService.getExistingProducer(roomId)`: `null` when the room has no
producers, otherwise `room.producers[0]` (only the first entry). -/
def getExistingProducer (s : State) (r : RoomId) : Option ProducerEntry :=
  match lookupRoom s r with
  | none => none
  | some room => room.producers.head?

/-- `SessionService.createWebRtcTransport(uid, roomId, direction)`: throws
when the room is absent; otherwise records `{ uid, transport, direction }`
with the engine transport that was created (its id is a parameter). -/
def createWebRtcTransportS (s : State) (u : Uid) (r : RoomId)
    (direction : Direction) (newId : HandleId) :
    State × Except SessionError HandleId :=
  match lookupRoom s r with
  | none => (s, Except.error (SessionError.roomNotFound r))
  | some _ =>
      (updateRoom s r (fun rm =>
         { rm with transports := rm.transports ++ [⟨u, newId, direction⟩] }),
       Except.ok newId)

/-- `SessionService.produce(uid, roomId, transportId, kind, rtpParameters)`:
looks the room up, finds the caller's transport by uid and transport id
(no direction check in the source), then records the engine producer
(id passed as a parameter) and returns it. -/
def produceS (s : State) (u : Uid) (r : RoomId) (transportId : HandleId)
    (kind : MediaKind) (rtpParameters : RtpParameters)
    (newProducerId : HandleId) : State × Except SessionError HandleId :=
  match lookupRoom s r with
  | none => (s, Except.error (SessionError.roomNotFound r))
  | some room =>
    match room.transports.find? (fun t => t.uid == u && t.id == transportId) with
    | none => (s, Except.error (SessionError.transportNotFound transportId))
    | some _ =>
        (updateRoom s r (fun rm =>
           { rm with producers := rm.producers ++ [⟨u, newProducerId, rtpParameters, kind⟩] }),
         Except.ok newProducerId)

/-- `SessionService.consume(user, roomId, producerId, rtpCapabilities)`:
finds the caller's recv transport, then the producer, then asks the engine
`router.canConsume` (oracle parameter); only if it agrees is the engine
consumer created (its id a parameter) and a consumer entry pushed. -/
def consumeS (s : State) (u : Uid) (r : RoomId) (producerId : HandleId)
    (canConsume : HandleId → RtpCapabilities → Bool)
    (rtpCapabilities : RtpCapabilities) (newConsumerId : HandleId) :
    State × Except SessionError HandleId :=
  match lookupRoom s r with
  | none => (s, Except.error (SessionError.roomNotFound r))
  | some room =>
    match room.transports.find? (fun t => t.uid == u && t.direction == Direction.recv) with
    | none => (s, Except.error (SessionError.consumerTransportNotFound u producerId))
    | some _ =>
      match room.producers.find? (fun p => p.id == producerId) with
      | none => (s, Except.error (SessionError.producerNotFound producerId))
      | some producer =>
        if canConsume producerId rtpCapabilities then
          (updateRoom s r (fun rm =>
             { rm with consumers := rm.consumers ++ [⟨u, newConsumerId, producerId, producer.kind⟩] }),
           Except.ok newConsumerId)
        else (s, Except.error (SessionError.cannotConsume producerId))

/-- The `produce` socket handler: silently declines when unauthenticated;
otherwise calls `SessionService.produce`, acknowledges the caller with the
producer id, then broadcasts `new-producer` to every other connection of the
room; engine/lookup errors are caught and surfaced in the callback. -/
def produceHandler (s : State) (user : Option Identity) (r : RoomId)
    (transportId : HandleId) (kind : MediaKind)
    (rtpParameters : RtpParameters) (newProducerId : HandleId) :
    State × List Event :=
  match user with
  | none => (s, [])
  | some ident =>
    match produceS s ident.uid r transportId kind rtpParameters newProducerId with
    | (s', Except.ok pid) =>
        (s', [Event.callbackProducerId pid, Event.newProducerToOthers r pid kind])
    | (s', Except.error e) => (s', [Event.callbackError e])

/-- The `create-transport` socket handler: silently declines when
unauthenticated; otherwise creates and records the transport, acknowledges
with the transport parameters, and — for a `recv` transport — emits
`new-producer` for `getExistingProducer` (the first producer, if any) to the
requesting connection only. -/
def createTransportHandler (s : State) (user : Option Identity) (r : RoomId)
    (direction : Direction) (newTransportId : HandleId) : State × List Event :=
  match user with
  | none => (s, [])
  | some ident =>
    match createWebRtcTransportS s ident.uid r direction newTransportId with
    | (s', Except.ok tid) =>
        let announce :=
          if direction = Direction.recv then
            match getExistingProducer s' r with
            | some p => [Event.newProducerToSelf p.id p.kind]
            | none => []
          else []
        (s', Event.callbackTransportParams tid :: announce)
    | (s', Except.error e) => (s', [Event.callbackError e])

/-- Outcome of `jwt.verify` on the presented token. -/
inductive TokenCheck
| invalid
| missingUid
| valid (uid : Uid)
deriving DecidableEq

/-- Outcome of the `SELECT * FROM users WHERE uid = ?` query. -/
inductive DbQueryResult
| rows (users : List Identity)
| failure
deriving DecidableEq

/-- The `authenticate` socket handler.  First component: the value the
acknowledgement callback is invoked with (`none` means the callback is never
invoked).  Second component: the identity bound to the connection
(`socket.user`), if any. -/
def authenticateHandler (tok : TokenCheck) (dbr : DbQueryResult) :
    Option Bool × Option Identity :=
  match tok with
  | TokenCheck.invalid => (none, none)
  | TokenCheck.missingUid => (none, none)
  | TokenCheck.valid _ =>
    match dbr with
    | DbQueryResult.failure => (some false, none)
    | DbQueryResult.rows [] => (none, none)
    | DbQueryResult.rows (usr :: _) => (some true, some usr)

/-- Client-driven operations on the session service, as dispatched by the
socket handlers, plus the firing of a scheduled cleanup sweep. -/
inductive Op
| createRoom (r : RoomId) (creatorUid : Uid)
| join (r : RoomId) (u : Uid)
| leave (u : Uid)
| sweepFire
deriving DecidableEq

/-- One step of the interleaved execution (engine handle ids irrelevant to
room membership are fixed to 0). -/
def stepE : State → Op → State × List Event
  | s, Op.createRoom r c => ((createRoom s r c 0 0).1, [])
  | s, Op.join r u => joinRoom s r u
  | s, Op.leave u => leaveUser s u
  | s, Op.sweepFire => sweepE s

/-- State projection of `stepE`. -/
def step (s : State) (op : Op) : State := (stepE s op).1

/-- Run a trace of operations from a given state. -/
def runFrom : State → List Op → State
  | s, [] => s
  | s, op :: t => runFrom (step s op) t

/-- Run a trace of operations from the empty registry. -/
def run (t : List Op) : State := runFrom [] t

/-- A trace is well-formed when every `join` targets a registered room
(otherwise `getRoom` throws and the handler answers `false`). -/
def okOps : State → List Op → Bool
  | _, [] => true
  | s, op :: t =>
    (match op with
     | Op.join r _ => (lookupRoom s r).isSome
     | _ => true) && okOps (step s op) t

/-- Net effect of the most recent `join`/`leave` of uid `u` touching room
`r` in a trace: `some true` when it was a join of `u` into `r`, `some false`
when it was a leave of `u`, `none` when neither ever happened. -/
def lastJL : List Op → RoomId → Uid → Option Bool
  | [], _, _ => none
  | op :: t, r, u =>
    match lastJL t r u with
    | some b => some b
    | none =>
      match op with
      | Op.join r' u' => if r' = r ∧ u' = u then some true else none
      | Op.leave u' => if u' = u then some false else none
      | _ => none

/-- All participant sets of the registry are duplicate-free. -/
def partsNodup (s : State) : Prop := ∀ p ∈ s, p.2.participants.Nodup

/-- Every transport id recorded anywhere in the registry, in order. -/
def allTransportIds (s : State) : List HandleId :=
  (s.map (fun p => p.2.transports.map (fun t => t.id))).flatten

/-- Every producer id recorded anywhere in the registry, in order. -/
def allProducerIds (s : State) : List HandleId :=
  (s.map (fun p => p.2.producers.map (fun pr => pr.id))).flatten

/-- Every consumer id recorded anywhere in the registry, in order. -/
def allConsumerIds (s : State) : List HandleId :=
  (s.map (fun p => p.2.consumers.map (fun c => c.id))).flatten

/-- Every participant set of the registry is duplicate-free.  Bundled with
`keysNodup` this is the structural well-formedness of reachable states. -/
def keysNodup (s : State) : Prop := (s.map Prod.fst).Nodup

/-- Concrete trace: creator 10 opens room 1, user 20 joins, the creator
leaves (scheduling a sweep) and rejoins before the sweep fires. -/
def c1Trace : List Op :=
  [Op.createRoom 1 10, Op.join 1 10, Op.join 1 20, Op.leave 10, Op.join 1 10]

/-- The state of room 1 at sweep fire time for `c1Trace`. -/
def c1Room : Room :=
  { creatorUid := 10, workerId := 0, routerId := 0, transports := [],
    producers := [], consumers := [], participants := [20, 10] }

/-- A room already registered under code 1. -/
def c2Room : Room :=
  { creatorUid := 10, workerId := 5, routerId := 6, transports := [],
    producers := [], consumers := [], participants := [10] }

/-- Registry holding `c2Room` under code 1. -/
def c2State : State := [(1, c2Room)]

/-- A room with one transport, one producer entry and one consumer entry. -/
def c3Room : Room :=
  { creatorUid := 10, workerId := 9, routerId := 4,
    transports := [⟨20, 3, Direction.send⟩],
    producers := [⟨20, 7, 0, MediaKind.audio⟩],
    consumers := [⟨30, 8, 7, MediaKind.audio⟩], participants := [20, 30] }

/-- Registry holding `c3Room` under code 1. -/
def c3State : State := [(1, c3Room)]

/-- A room in which uid 20 owns two transports, a producer and a consumer. -/
def c4Room : Room :=
  { creatorUid := 10, workerId := 9, routerId := 4,
    transports := [⟨20, 3, Direction.send⟩, ⟨21, 4, Direction.recv⟩],
    producers := [⟨20, 7, 0, MediaKind.audio⟩],
    consumers := [⟨20, 8, 7, MediaKind.audio⟩], participants := [20, 21] }

/-- Registry holding `c4Room` under code 1. -/
def c4State : State := [(1, c4Room)]

/-- A room where uid 20 owns a recv transport and uid 10 a producer. -/
def c5Room : Room :=
  { creatorUid := 10, workerId := 9, routerId := 4,
    transports := [⟨20, 3, Direction.recv⟩],
    producers := [⟨10, 7, 0, MediaKind.video⟩],
    consumers := [], participants := [10, 20] }

/-- Registry holding `c5Room` under code 1. -/
def c5State : State := [(1, c5Room)]

/-- A room whose creator 10 is absent while member 20 remains. -/
def c6Room : Room :=
  { creatorUid := 10, workerId := 9, routerId := 4,
    transports := [⟨20, 3, Direction.send⟩],
    producers := [], consumers := [], participants := [20] }

/-- Registry holding `c6Room` under code 1. -/
def c6State : State := [(1, c6Room)]

/-- Concrete trace: user 20 joins twice, leaves, and joins again. -/
def c7Trace : List Op :=
  [Op.createRoom 1 10, Op.join 1 10, Op.join 1 20, Op.join 1 20,
   Op.leave 20, Op.join 1 20]

/-- The state of room 1 after `c7Trace`. -/
def c7Room : Room :=
  { creatorUid := 10, workerId := 0, routerId := 0, transports := [],
    producers := [], consumers := [], participants := [10, 20] }

/-- Authenticated identity used by the `produce` witness. -/
def c8User : Identity := ⟨20, "bob"⟩

/-- A room where uid 20 owns a send transport. -/
def c8Room : Room :=
  { creatorUid := 10, workerId := 9, routerId := 4,
    transports := [⟨20, 3, Direction.send⟩],
    producers := [], consumers := [], participants := [10, 20] }

/-- Registry holding `c8Room` under code 1. -/
def c8State : State := [(1, c8Room)]

/-- Authenticated identity used by the `create-transport` examples. -/
def c9User : Identity := ⟨30, "carol"⟩

/-- A room with two recorded producers (ids 7 and 8). -/
def c9Room : Room :=
  { creatorUid := 10, workerId := 9, routerId := 4,
    transports := [⟨10, 3, Direction.send⟩],
    producers := [⟨10, 7, 0, MediaKind.audio⟩, ⟨21, 8, 0, MediaKind.video⟩],
    consumers := [], participants := [10, 21, 30] }

/-- Registry holding `c9Room` under code 1. -/
def c9State : State := [(1, c9Room)]

/-- A stored user row used by the `authenticate` witness. -/
def c10User : Identity := ⟨1, "dave"⟩

lemma lookupRoom_updateRoom_self (s : State) (r : RoomId) (f : Room → Room) :
    lookupRoom (updateRoom s r f) r = (lookupRoom s r).map f := by
  induction s with
  | nil => rfl
  | cons p rest ih =>
    obtain ⟨a, b⟩ := p
    by_cases h : a = r
    · simp [updateRoom, lookupRoom, h]
    · simp [updateRoom, lookupRoom, h, ih]

lemma lookupRoom_updateRoom_ne (s : State) (r r' : RoomId) (f : Room → Room)
    (h : r' ≠ r) : lookupRoom (updateRoom s r f) r' = lookupRoom s r' := by
  induction s with
  | nil => rfl
  | cons p rest ih =>
    obtain ⟨a, b⟩ := p
    by_cases ha : a = r
    · subst ha
      simp [updateRoom, lookupRoom, Ne.symm h, ih]
    · by_cases ha' : a = r'
      · subst ha'
        simp [updateRoom, lookupRoom, h]
      · simp [updateRoom, lookupRoom, ha, ha', ih]

lemma lookupRoom_removeRoom_self (s : State) (r : RoomId) :
    lookupRoom (removeRoom s r) r = none := by
  induction s with
  | nil => rfl
  | cons p rest ih =>
    obtain ⟨a, b⟩ := p
    by_cases h : a = r
    · simp [removeRoom, h, ih]
    · simp [removeRoom, lookupRoom, h, ih]

lemma lookupRoom_removeRoom_ne (s : State) (r r' : RoomId) (h : r' ≠ r) :
    lookupRoom (removeRoom s r) r' = lookupRoom s r' := by
  induction s with
  | nil => rfl
  | cons p rest ih =>
    obtain ⟨a, b⟩ := p
    by_cases ha : a = r
    · subst ha
      simp [removeRoom, lookupRoom, Ne.symm h, ih]
    · by_cases ha' : a = r'
      · subst ha'
        simp [removeRoom, lookupRoom, h]
      · simp [removeRoom, lookupRoom, ha, ha', ih]

lemma lookupRoom_mem_keys {s : State} {r : RoomId} {room : Room}
    (h : lookupRoom s r = some room) : r ∈ s.map Prod.fst := by
  induction s with
  | nil => simp [lookupRoom] at h
  | cons p rest ih =>
    obtain ⟨a, b⟩ := p
    by_cases ha : a = r
    · simp [ha]
    · simp only [lookupRoom, if_neg ha] at h
      simp [ih h]

lemma lookupRoom_mem {s : State} {r : RoomId} {room : Room}
    (h : lookupRoom s r = some room) : (r, room) ∈ s := by
  induction s with
  | nil => simp [lookupRoom] at h
  | cons p rest ih =>
    obtain ⟨a, b⟩ := p
    by_cases ha : a = r
    · subst ha
      simp [lookupRoom] at h
      simp [h]
    · simp only [lookupRoom, if_neg ha] at h
      simp [ih h]

lemma lookupRoom_eq_none_iff {s : State} {r : RoomId} :
    lookupRoom s r = none ↔ r ∉ s.map Prod.fst := by
  induction s with
  | nil => simp [lookupRoom]
  | cons p rest ih =>
    obtain ⟨a, b⟩ := p
    by_cases ha : a = r
    · simp [lookupRoom, ha]
    · simp [lookupRoom, ha, ih, Ne.symm ha]

lemma lookupRoom_map_value (s : State) (r : RoomId) (g : Room → Room) :
    lookupRoom (s.map (fun p => (p.1, g p.2))) r = (lookupRoom s r).map g := by
  induction s with
  | nil => rfl
  | cons p rest ih =>
    obtain ⟨a, b⟩ := p
    by_cases ha : a = r
    · simp [lookupRoom, ha]
    · simpa [lookupRoom, ha] using ih

lemma lookupRoom_append_some {s : State} {r : RoomId} {room : Room}
    (q : State) (h : lookupRoom s r = some room) :
    lookupRoom (s ++ q) r = some room := by
  induction s with
  | nil => simp [lookupRoom] at h
  | cons p rest ih =>
    obtain ⟨a, b⟩ := p
    by_cases ha : a = r
    · simp only [lookupRoom, if_pos ha] at h
      simp [lookupRoom, ha, h]
    · simp only [lookupRoom, if_neg ha] at h
      simpa [lookupRoom, ha] using ih h

lemma lookupRoom_append_none {s : State} {r : RoomId}
    (q : State) (h : lookupRoom s r = none) :
    lookupRoom (s ++ q) r = lookupRoom q r := by
  induction s with
  | nil => simp
  | cons p rest ih =>
    obtain ⟨a, b⟩ := p
    by_cases ha : a = r
    · simp [lookupRoom, ha] at h
    · simp only [lookupRoom, if_neg ha] at h
      simpa [lookupRoom, ha] using ih h

/-- C2.  `createRoom(code, creatorUid)` on an already-registered code does
not fail and does not register a second room: it leaves the registry
unchanged and returns the already-registered room object. -/
theorem createRoom_duplicate_idempotent (s : State) (r : RoomId)
    (creatorUid : Uid) (workerId routerId : HandleId) (room0 : Room)
    (h : lookupRoom s r = some room0) :
    createRoom s r creatorUid workerId routerId = (s, room0) := by
  simp [createRoom, h]

/-- Witness for C2 at a concrete registry. -/
theorem createRoom_duplicate_idempotent_witness :
    createRoom c2State 1 99 50 60 = (c2State, c2Room) :=
  createRoom_duplicate_idempotent c2State 1 99 50 60 c2Room (by decide)

/-- C5.  When the engine capability check declines, `consume` fails with the
`Cannot consume` error (the spec's `CapabilityMismatch`) and the registry —
in particular the room's consumer collection — is left unchanged. -/
theorem consume_capability_mismatch (s : State) (u : Uid) (r : RoomId)
    (producerId : HandleId) (canConsume : HandleId → RtpCapabilities → Bool)
    (rtpCapabilities : RtpCapabilities) (newConsumerId : HandleId)
    (room : Room) (t : TransportEntry) (producer : ProducerEntry)
    (hroom : lookupRoom s r = some room)
    (ht : room.transports.find?
        (fun tr => tr.uid == u && tr.direction == Direction.recv) = some t)
    (hp : room.producers.find? (fun pr => pr.id == producerId) = some producer)
    (hcc : canConsume producerId rtpCapabilities = false) :
    consumeS s u r producerId canConsume rtpCapabilities newConsumerId
      = (s, Except.error (SessionError.cannotConsume producerId)) := by
  simp [consumeS, hroom, ht, hp, hcc]

/-- Witness for C5 at a concrete registry with a declining engine. -/
theorem consume_capability_mismatch_witness :
    consumeS c5State 20 1 7 (fun _ _ => false) 0 99
      = (c5State, Except.error (SessionError.cannotConsume 7)) :=
  consume_capability_mismatch c5State 20 1 7 (fun _ _ => false) 0 99 c5Room
    ⟨20, 3, Direction.recv⟩ ⟨10, 7, 0, MediaKind.video⟩
    (by decide) (by decide) (by decide) (by decide)

/-- C10.  The `authenticate` handler: an invalid token, a token without a
uid, or an empty user-store result invoke no callback at all; a failing
user-store query invokes the callback with `false`; the callback receives
`true` exactly when a user row is bound to the connection. -/
theorem authenticate_callback_spec :
    (∀ d, authenticateHandler TokenCheck.invalid d = (none, none))
  ∧ (∀ d, authenticateHandler TokenCheck.missingUid d = (none, none))
  ∧ (∀ u, authenticateHandler (TokenCheck.valid u) DbQueryResult.failure
      = (some false, none))
  ∧ (∀ u, authenticateHandler (TokenCheck.valid u) (DbQueryResult.rows [])
      = (none, none))
  ∧ (∀ u usr rest, authenticateHandler (TokenCheck.valid u)
      (DbQueryResult.rows (usr :: rest)) = (some true, some usr))
  ∧ (∀ tok d, (authenticateHandler tok d).1 = some true →
      (authenticateHandler tok d).2.isSome = true) := by
  refine ⟨?_, ?_, ?_, ?_, ?_, ?_⟩
  · intro d; cases d <;> rfl
  · intro d; cases d <;> rfl
  · intro u; rfl
  · intro u; rfl
  · intro u usr rest; rfl
  · intro tok d h
    cases tok with
    | invalid => simp [authenticateHandler] at h
    | missingUid => simp [authenticateHandler] at h
    | valid u =>
      cases d with
      | failure => simp [authenticateHandler] at h
      | rows users =>
        cases users with
        | nil => simp [authenticateHandler] at h
        | cons usr rest => simp [authenticateHandler]

/-- Witness for C10: the callback-true case binds the queried user row. -/
theorem authenticate_callback_spec_witness :
    (authenticateHandler (TokenCheck.valid 1)
      (DbQueryResult.rows [c10User])).2.isSome = true :=
  authenticate_callback_spec.2.2.2.2.2 (TokenCheck.valid 1)
    (DbQueryResult.rows [c10User]) (by decide)

/-- Counterexample to C3 as stated: `closeRoom` on a room with a recorded
producer entry (handle 7) and consumer entry (handle 8) closes neither of
those engine handles. -/
theorem closeRoom_skips_producer_consumer_cex :
    ((⟨20, 7, 0, MediaKind.audio⟩ : ProducerEntry) ∈ c3Room.producers
      ∧ (⟨30, 8, 7, MediaKind.audio⟩ : ConsumerEntry) ∈ c3Room.consumers)
  ∧ Event.closeProducer 7 ∉ (closeRoomE c3State 1).2
  ∧ Event.closeConsumer 8 ∉ (closeRoomE c3State 1).2 := by
  decide

/-- C3 amended.  `closeRoom(code)` on a registered room closes every
transport handle recorded in the room and then the worker context (in that
order), removes the room from the registry without touching other rooms, and
never closes producer or consumer handles individually; closing an absent
room is a no-op. -/
theorem closeRoom_amended (s : State) (r : RoomId) :
    (∀ room, lookupRoom s r = some room →
        (closeRoomE s r).1 = removeRoom s r
      ∧ (closeRoomE s r).2
          = room.transports.map (fun t => Event.closeTransport t.id)
              ++ [Event.closeWorker room.workerId]
      ∧ lookupRoom (closeRoomE s r).1 r = none
      ∧ (∀ r', r' ≠ r → lookupRoom (closeRoomE s r).1 r' = lookupRoom s r')
      ∧ (∀ h, Event.closeProducer h ∉ (closeRoomE s r).2
              ∧ Event.closeConsumer h ∉ (closeRoomE s r).2))
  ∧ (lookupRoom s r = none → closeRoomE s r = (s, [])) := by
  constructor
  · intro room hroom
    refine ⟨by simp [closeRoomE, hroom], by simp [closeRoomE, hroom], ?_, ?_, ?_⟩
    · simp [closeRoomE, hroom, lookupRoom_removeRoom_self]
    · intro r' hr'
      simp [closeRoomE, hroom, lookupRoom_removeRoom_ne s r r' hr']
    · intro h
      constructor
      · intro hmem
        simp only [closeRoomE, hroom] at hmem
        rcases List.mem_append.1 hmem with hm | hm
        · rcases List.mem_map.1 hm with ⟨t, _, ht⟩
          exact Event.noConfusion ht
        · simp at hm
      · intro hmem
        simp only [closeRoomE, hroom] at hmem
        rcases List.mem_append.1 hmem with hm | hm
        · rcases List.mem_map.1 hm with ⟨t, _, ht⟩
          exact Event.noConfusion ht
        · simp at hm
  · intro hnone
    simp [closeRoomE, hnone]

/-- Witness for C3 (amended) at a concrete registry. -/
theorem closeRoom_amended_witness :
    (closeRoomE c3State 1).2
      = [Event.closeTransport 3, Event.closeWorker 9] :=
  ((closeRoom_amended c3State 1).1 c3Room (by decide)).2.1

/-- C8.  A successful `produce` by an authenticated user owning the named
send transport records the producer entry in the room, acknowledges the
caller with the producer id, and then broadcasts `new-producer` with that id
and kind to every other connection of the room's broadcast group. -/
theorem produce_handler_spec (s : State) (ident : Identity) (r : RoomId)
    (transportId : HandleId) (kind : MediaKind) (rtpParameters : RtpParameters)
    (newProducerId : HandleId) (room : Room) (t : TransportEntry)
    (hroom : lookupRoom s r = some room)
    (htmem : t ∈ room.transports) (huid : t.uid = ident.uid)
    (hid : t.id = transportId) (_hdir : t.direction = Direction.send) :
    produceHandler s (some ident) r transportId kind rtpParameters newProducerId
      = (updateRoom s r (fun rm =>
           { rm with producers :=
               rm.producers ++ [⟨ident.uid, newProducerId, rtpParameters, kind⟩] }),
         [Event.callbackProducerId newProducerId,
          Event.newProducerToOthers r newProducerId kind]) := by
  have hfind : (room.transports.find?
      (fun tr => tr.uid == ident.uid && tr.id == transportId)).isSome = true := by
    refine List.find?_isSome.2 ⟨t, htmem, ?_⟩
    simp [huid, hid]
  rcases Option.isSome_iff_exists.1 hfind with ⟨t', ht'⟩
  simp [produceHandler, produceS, hroom, ht']

/-- Witness for C8 at a concrete registry. -/
theorem produce_handler_spec_witness :
    produceHandler c8State (some c8User) 1 3 MediaKind.video 0 7
      = (updateRoom c8State 1 (fun rm =>
           { rm with producers := rm.producers ++ [⟨20, 7, 0, MediaKind.video⟩] }),
         [Event.callbackProducerId 7,
          Event.newProducerToOthers 1 7 MediaKind.video]) :=
  produce_handler_spec c8State c8User 1 3 MediaKind.video 0 7 c8Room
    ⟨20, 3, Direction.send⟩ (by decide) (by decide) (by decide) (by decide)
    (by decide)

/-- Counterexample to C9 as stated: with two producers recorded in the room,
creating a recv transport announces only the first; no `new-producer`
emission for the second recorded producer (id 8) reaches the requester. -/
theorem createTransport_announce_cex :
    (⟨21, 8, 0, MediaKind.video⟩ : ProducerEntry) ∈ c9Room.producers
  ∧ Event.newProducerToSelf 8 MediaKind.video
      ∉ (createTransportHandler c9State (some c9User) 1 Direction.recv 5).2 := by
  decide

/-- C9 amended.  On a successful recv `create-transport` request by an
authenticated user in an existing room, the transport is recorded, the
transport parameters are acknowledged first, and then the *first* recorded
producer of the room (`producers[0]`), if any, is announced to the requester
via a single `new-producer` emission carrying its id and kind; later
producers are not announced. -/
theorem createTransport_announces_first_producer (s : State) (ident : Identity)
    (r : RoomId) (newTransportId : HandleId) (room : Room)
    (hroom : lookupRoom s r = some room) :
    createTransportHandler s (some ident) r Direction.recv newTransportId
      = (updateRoom s r (fun rm =>
           { rm with transports :=
               rm.transports ++ [⟨ident.uid, newTransportId, Direction.recv⟩] }),
         Event.callbackTransportParams newTransportId ::
           (match room.producers.head? with
            | some p => [Event.newProducerToSelf p.id p.kind]
            | none => [])) := by
  have hlook : lookupRoom (updateRoom s r (fun rm =>
      { rm with transports :=
          rm.transports ++ [⟨ident.uid, newTransportId, Direction.recv⟩] })) r
      = some { room with transports :=
          room.transports ++ [⟨ident.uid, newTransportId, Direction.recv⟩] } := by
    rw [lookupRoom_updateRoom_self, hroom]
    rfl
  simp [createTransportHandler, createWebRtcTransportS, hroom,
    getExistingProducer, hlook]

/-- Witness for C9 (amended) at a concrete registry with two producers. -/
theorem createTransport_announces_first_producer_witness :
    createTransportHandler c9State (some c9User) 1 Direction.recv 5
      = (updateRoom c9State 1 (fun rm =>
           { rm with transports :=
               rm.transports ++ [⟨30, 5, Direction.recv⟩] }),
         [Event.callbackTransportParams 5,
          Event.newProducerToSelf 7 MediaKind.audio]) :=
  createTransport_announces_first_producer c9State c9User 1 5 c9Room (by decide)

lemma runFrom_append (s : State) (t t' : List Op) :
    runFrom s (t ++ t') = runFrom (runFrom s t) t' := by
  induction t generalizing s with
  | nil => rfl
  | cons op t ih => simp [runFrom, ih]

lemma cleanNoHostGo_none (keys : List RoomId) :
    ∀ s r, lookupRoom s r = none →
      lookupRoom (cleanNoHostGo keys s).1 r = none := by
  induction keys with
  | nil => intro s r h; simpa [cleanNoHostGo] using h
  | cons k rest ih =>
    intro s r h
    cases hk : lookupRoom s k with
    | none => simpa [cleanNoHostGo, hk] using ih s r h
    | some roomK =>
      by_cases hkin : roomK.creatorUid ∈ roomK.participants
      · simpa [cleanNoHostGo, hk, hkin] using ih s r h
      · have h2 : lookupRoom (closeRoomE s k).1 r = none := by
          by_cases hkr : r = k
          · subst hkr; simp [closeRoomE, hk, lookupRoom_removeRoom_self]
          · simp [closeRoomE, hk, lookupRoom_removeRoom_ne _ _ _ hkr, h]
        simpa [cleanNoHostGo, hk, hkin] using ih _ r h2

lemma cleanNoHostGo_preserved (keys : List RoomId) :
    ∀ s r room, lookupRoom s r = some room →
      room.creatorUid ∈ room.participants →
      lookupRoom (cleanNoHostGo keys s).1 r = some room := by
  induction keys with
  | nil => intro s r room h _; simpa [cleanNoHostGo] using h
  | cons k rest ih =>
    intro s r room h hin
    cases hk : lookupRoom s k with
    | none => simpa [cleanNoHostGo, hk] using ih s r room h hin
    | some roomK =>
      by_cases hkin : roomK.creatorUid ∈ roomK.participants
      · simpa [cleanNoHostGo, hk, hkin] using ih s r room h hin
      · by_cases hkr : r = k
        · exfalso
          subst hkr
          have : room = roomK := Option.some.inj (h.symm.trans hk)
          subst this
          exact hkin hin
        · have h2 : lookupRoom (closeRoomE s k).1 r = some room := by
            simp [closeRoomE, hk, lookupRoom_removeRoom_ne _ _ _ hkr, h]
          simpa [cleanNoHostGo, hk, hkin] using ih _ r room h2 hin

lemma cleanNoHostGo_closes (keys : List RoomId) :
    ∀ s r room, r ∈ keys → lookupRoom s r = some room →
      room.creatorUid ∉ room.participants →
      lookupRoom (cleanNoHostGo keys s).1 r = none := by
  induction keys with
  | nil => intro s r room hmem _ _; simp at hmem
  | cons k rest ih =>
    intro s r room hmem h habs
    by_cases hkr : k = r
    · subst hkr
      have h2 : lookupRoom (closeRoomE s k).1 k = none := by
        simp [closeRoomE, h, lookupRoom_removeRoom_self]
      simpa [cleanNoHostGo, h, habs] using cleanNoHostGo_none rest _ k h2
    · have hr : r ∈ rest := by
        rcases List.mem_cons.1 hmem with hh | hh
        · exact absurd hh.symm hkr
        · exact hh
      cases hk : lookupRoom s k with
      | none => simpa [cleanNoHostGo, hk] using ih s r room hr h habs
      | some roomK =>
        by_cases hkin : roomK.creatorUid ∈ roomK.participants
        · simpa [cleanNoHostGo, hk, hkin] using ih s r room hr h habs
        · have h2 : lookupRoom (closeRoomE s k).1 r = some room := by
            simp [closeRoomE, hk,
              lookupRoom_removeRoom_ne _ _ _ (fun hh => hkr hh.symm), h]
          simpa [cleanNoHostGo, hk, hkin] using ih _ r room hr h2 habs

lemma cleanEmptyGo_none (keys : List RoomId) :
    ∀ s r, lookupRoom s r = none →
      lookupRoom (cleanEmptyGo keys s).1 r = none := by
  induction keys with
  | nil => intro s r h; simpa [cleanEmptyGo] using h
  | cons k rest ih =>
    intro s r h
    cases hk : lookupRoom s k with
    | none => simpa [cleanEmptyGo, hk] using ih s r h
    | some roomK =>
      by_cases hkz : roomK.participants.length = 0
      · have h2 : lookupRoom (closeRoomE s k).1 r = none := by
          by_cases hkr : r = k
          · subst hkr; simp [closeRoomE, hk, lookupRoom_removeRoom_self]
          · simp [closeRoomE, hk, lookupRoom_removeRoom_ne _ _ _ hkr, h]
        simpa [cleanEmptyGo, hk, hkz] using ih _ r h2
      · simpa [cleanEmptyGo, hk, hkz] using ih s r h

lemma cleanEmptyGo_preserved (keys : List RoomId) :
    ∀ s r room, lookupRoom s r = some room →
      room.participants ≠ [] →
      lookupRoom (cleanEmptyGo keys s).1 r = some room := by
  induction keys with
  | nil => intro s r room h _; simpa [cleanEmptyGo] using h
  | cons k rest ih =>
    intro s r room h hne
    cases hk : lookupRoom s k with
    | none => simpa [cleanEmptyGo, hk] using ih s r room h hne
    | some roomK =>
      by_cases hkz : roomK.participants.length = 0
      · by_cases hkr : r = k
        · exfalso
          subst hkr
          have : room = roomK := Option.some.inj (h.symm.trans hk)
          subst this
          exact hne (List.length_eq_zero.1 hkz)
        · have h2 : lookupRoom (closeRoomE s k).1 r = some room := by
            simp [closeRoomE, hk, lookupRoom_removeRoom_ne _ _ _ hkr, h]
          simpa [cleanEmptyGo, hk, hkz] using ih _ r room h2 hne
      · simpa [cleanEmptyGo, hk, hkz] using ih s r room h hne

/-- C1.  The sweep scheduled by `leave` evaluates the live participant set at
fire time: whatever happened in the window, a room whose creator is a
participant when the sweep fires survives it unchanged, and a room whose
creator is absent when the sweep fires is closed by it. -/
theorem sweep_reads_state_at_fire_time (t : List Op) (r : RoomId) (room : Room)
    (h : lookupRoom (run t) r = some room) :
    (room.creatorUid ∈ room.participants →
        lookupRoom (run (t ++ [Op.sweepFire])) r = some room)
  ∧ (room.creatorUid ∉ room.participants →
        lookupRoom (run (t ++ [Op.sweepFire])) r = none) := by
  have hrun : run (t ++ [Op.sweepFire]) = (sweepE (run t)).1 := by
    simp [run, runFrom_append, runFrom, step, stepE]
  constructor
  · intro hin
    rw [hrun]
    have h1 := cleanNoHostGo_preserved ((run t).map Prod.fst) (run t) r room h hin
    have h2 := cleanEmptyGo_preserved
      (((cleanNoHostGo ((run t).map Prod.fst) (run t)).1).map Prod.fst)
      ((cleanNoHostGo ((run t).map Prod.fst) (run t)).1) r room h1
      (List.ne_nil_of_mem hin)
    simpa [sweepE, cleanNoHostRooms, cleanEmptyRooms] using h2
  · intro habs
    rw [hrun]
    have h1 := cleanNoHostGo_closes ((run t).map Prod.fst) (run t) r room
      (lookupRoom_mem_keys h) h habs
    have h2 := cleanEmptyGo_none
      (((cleanNoHostGo ((run t).map Prod.fst) (run t)).1).map Prod.fst)
      ((cleanNoHostGo ((run t).map Prod.fst) (run t)).1) r h1
    simpa [sweepE, cleanNoHostRooms, cleanEmptyRooms] using h2

/-- Witness for C1: creator 10 leaves and rejoins before the sweep fires, so
room 1 survives the sweep. -/
theorem sweep_reads_state_at_fire_time_witness :
    lookupRoom (run (c1Trace ++ [Op.sweepFire])) 1 = some c1Room :=
  (sweep_reads_state_at_fire_time c1Trace 1 c1Room (by decide)).1 (by decide)

/-- Counterexample to C6 as stated: for a room whose creator is absent at
fire time, the sweep's event order is close-transports, close-worker, and
only then the `sessionClosed` broadcast — the broadcast does not precede the
closure. -/
theorem sweep_broadcast_order_cex :
    (sweepE c6State).2
      = [Event.closeTransport 3, Event.closeWorker 9, Event.sessionClosed 1]
  ∧ ¬ ((sweepE c6State).2.indexOf (Event.sessionClosed 1)
        < (sweepE c6State).2.indexOf (Event.closeWorker 9)) := by
  decide

lemma cleanNoHostGo_block (keys : List RoomId) :
    ∀ s r room, r ∈ keys → lookupRoom s r = some room →
      room.creatorUid ∉ room.participants →
      ∃ l1 l2, (cleanNoHostGo keys s).2
        = l1 ++ (room.transports.map (fun t => Event.closeTransport t.id)
            ++ [Event.closeWorker room.workerId, Event.sessionClosed r]) ++ l2 := by
  induction keys with
  | nil => intro s r room hmem _ _; simp at hmem
  | cons k rest ih =>
    intro s r room hmem h habs
    by_cases hkr : k = r
    · subst hkr
      refine ⟨[], (cleanNoHostGo rest (closeRoomE s k).1).2, ?_⟩
      simp [cleanNoHostGo, h, habs, closeRoomE]
    · have hr : r ∈ rest := by
        rcases List.mem_cons.1 hmem with hh | hh
        · exact absurd hh.symm hkr
        · exact hh
      cases hk : lookupRoom s k with
      | none =>
        obtain ⟨l1, l2, hl⟩ := ih s r room hr h habs
        exact ⟨l1, l2, by simpa [cleanNoHostGo, hk] using hl⟩
      | some roomK =>
        by_cases hkin : roomK.creatorUid ∈ roomK.participants
        · obtain ⟨l1, l2, hl⟩ := ih s r room hr h habs
          exact ⟨l1, l2, by simpa [cleanNoHostGo, hk, hkin] using hl⟩
        · have h2 : lookupRoom (closeRoomE s k).1 r = some room := by
            simp [closeRoomE, hk,
              lookupRoom_removeRoom_ne _ _ _ (fun hh => hkr hh.symm), h]
          obtain ⟨l1, l2, hl⟩ := ih (closeRoomE s k).1 r room hr h2 habs
          refine ⟨(closeRoomE s k).2 ++ Event.sessionClosed k :: l1, l2, ?_⟩
          simp [cleanNoHostGo, hk, hkin, hl]

/-- C6 amended.  The sweep performs step (a), `cleanNoHostRooms`, before
step (b), `cleanEmptyRooms`; within step (a), a room whose creator is absent
has its resources closed first (transports, then worker) and the
`sessionClosed` broadcast is emitted immediately after that closure — not
before it. -/
theorem sweep_close_then_broadcast (s : State) (r : RoomId) (room : Room)
    (h : lookupRoom s r = some room)
    (habs : room.creatorUid ∉ room.participants) :
    ((sweepE s).2
        = (cleanNoHostRooms s).2 ++ (cleanEmptyRooms (cleanNoHostRooms s).1).2)
  ∧ ∃ l1 l2, (cleanNoHostRooms s).2
      = l1 ++ (room.transports.map (fun t => Event.closeTransport t.id)
          ++ [Event.closeWorker room.workerId, Event.sessionClosed r]) ++ l2 :=
  ⟨rfl, cleanNoHostGo_block (s.map Prod.fst) s r room (lookupRoom_mem_keys h) h habs⟩

/-- Witness for C6 (amended) at a concrete one-room registry. -/
theorem sweep_close_then_broadcast_witness :
    ∃ l1 l2, (cleanNoHostRooms c6State).2
      = l1 ++ (c6Room.transports.map (fun t => Event.closeTransport t.id)
          ++ [Event.closeWorker c6Room.workerId, Event.sessionClosed 1]) ++ l2 :=
  (sweep_close_then_broadcast c6State 1 c6Room (by decide) (by decide)).2

lemma closeTransport_injective : Function.Injective Event.closeTransport := by
  intro a b h
  injection h

lemma closeProducer_injective : Function.Injective Event.closeProducer := by
  intro a b h
  injection h

lemma closeConsumer_injective : Function.Injective Event.closeConsumer := by
  intro a b h
  injection h

lemma count_map_comp {α : Type} (l : List α) (g : α → HandleId)
    (f : HandleId → Event) (hf : Function.Injective f) (h : HandleId) :
    (l.map (fun x => f (g x))).count (f h) = (l.map g).count h := by
  have : l.map (fun x => f (g x)) = (l.map g).map f := by
    rw [List.map_map]
    rfl
  rw [this]
  exact List.count_map_of_injective _ f hf h

lemma count_map_other {α : Type} (l : List α) (g : α → Event) (e : Event)
    (hne : ∀ x, g x ≠ e) : (l.map g).count e = 0 := by
  refine List.count_eq_zero.2 ?_
  intro hmem
  rcases List.mem_map.1 hmem with ⟨x, _, hx⟩
  exact hne x hx

lemma count_clearRoomEvents_transport (u : Uid) (h : HandleId) (rm : Room) :
    (clearRoomEvents u rm).count (Event.closeTransport h)
      = ((rm.transports.filter (fun t => t.uid == u)).map
          (fun t => t.id)).count h := by
  unfold clearRoomEvents
  rw [List.count_append, List.count_append,
    count_map_comp _ _ _ closeTransport_injective,
    count_map_other _ _ _ (fun p => by intro hc; injection hc),
    count_map_other _ _ _ (fun c => by intro hc; injection hc)]
  simp

lemma count_clearRoomEvents_producer (u : Uid) (h : HandleId) (rm : Room) :
    (clearRoomEvents u rm).count (Event.closeProducer h)
      = ((rm.producers.filter (fun p => p.uid == u)).map
          (fun p => p.id)).count h := by
  unfold clearRoomEvents
  rw [List.count_append, List.count_append,
    count_map_comp _ _ _ closeProducer_injective,
    count_map_other _ _ _ (fun t => by intro hc; injection hc),
    count_map_other _ _ _ (fun c => by intro hc; injection hc)]
  simp

lemma count_clearRoomEvents_consumer (u : Uid) (h : HandleId) (rm : Room) :
    (clearRoomEvents u rm).count (Event.closeConsumer h)
      = ((rm.consumers.filter (fun c => c.uid == u)).map
          (fun c => c.id)).count h := by
  unfold clearRoomEvents
  rw [List.count_append, List.count_append,
    count_map_comp _ _ _ closeConsumer_injective,
    count_map_other _ _ _ (fun t => by intro hc; injection hc),
    count_map_other _ _ _ (fun p => by intro hc; injection hc)]
  simp

lemma sum_filtered_count_eq_one {β : Type}
    (s : List β) (full sub : β → List HandleId)
    (hsub : ∀ b, List.Sublist (sub b) (full b))
    (hnodup : ((s.map full).flatten).Nodup)
    (b0 : β) (hb0 : b0 ∈ s) (h : HandleId) (hh : h ∈ sub b0) :
    (s.map (fun b => (sub b).count h)).sum = 1 := by
  have hle : (s.map (fun b => (sub b).count h)).sum
      ≤ (s.map (fun b => (full b).count h)).sum :=
    List.sum_le_sum (fun b _ => (hsub b).count_le h)
  have hfull : (s.map (fun b => (full b).count h)).sum
      = ((s.map full).flatten).count h := by
    rw [List.count_flatten, List.map_map]
    rfl
  have hmem : h ∈ (s.map full).flatten :=
    List.mem_flatten.2 ⟨full b0, List.mem_map.2 ⟨b0, hb0, rfl⟩, (hsub b0).subset hh⟩
  have hone : ((s.map full).flatten).count h = 1 :=
    List.count_eq_one_of_mem hnodup hmem
  have hge : 1 ≤ (s.map (fun b => (sub b).count h)).sum := by
    have h1 : 1 ≤ (sub b0).count h := List.one_le_count_iff.2 hh
    exact le_trans h1 (List.single_le_sum (fun x _ => Nat.zero_le x) _
      (List.mem_map.2 ⟨b0, hb0, rfl⟩))
  omega

lemma count_clearUserData_flatten (s : State) (u : Uid) (e : Event)
    (percount : Room → Nat)
    (hper : ∀ rm, (clearRoomEvents u rm).count e = percount rm) :
    (clearUserData s u).2.count e = (s.map (fun p => percount p.2)).sum := by
  show ((s.map (fun p => clearRoomEvents u p.2)).flatten).count e = _
  rw [List.count_flatten, List.map_map]
  congr 1
  exact List.map_congr_left (fun p _ => hper p.2)

/-- C4.  `clearUserData(uid)` removes every transport/producer/consumer
entry owned by the uid from every room, and — provided the engine handle
ids recorded in the registry are pairwise distinct, as engine-created ids
are — the handle of each removed entry is closed exactly once. -/
theorem clearUserData_spec (s : State) (u : Uid)
    (hT : (allTransportIds s).Nodup) (hP : (allProducerIds s).Nodup)
    (hC : (allConsumerIds s).Nodup) :
    (∀ p ∈ (clearUserData s u).1, ∀ t ∈ p.2.transports, t.uid ≠ u)
  ∧ (∀ p ∈ (clearUserData s u).1, ∀ pr ∈ p.2.producers, pr.uid ≠ u)
  ∧ (∀ p ∈ (clearUserData s u).1, ∀ c ∈ p.2.consumers, c.uid ≠ u)
  ∧ (∀ p ∈ s, ∀ t ∈ p.2.transports, t.uid = u →
        (clearUserData s u).2.count (Event.closeTransport t.id) = 1)
  ∧ (∀ p ∈ s, ∀ pr ∈ p.2.producers, pr.uid = u →
        (clearUserData s u).2.count (Event.closeProducer pr.id) = 1)
  ∧ (∀ p ∈ s, ∀ c ∈ p.2.consumers, c.uid = u →
        (clearUserData s u).2.count (Event.closeConsumer c.id) = 1) := by
  refine ⟨?_, ?_, ?_, ?_, ?_, ?_⟩
  · intro p hp t ht
    rcases List.mem_map.1 hp with ⟨q, _, rfl⟩
    have := (List.mem_filter.1 ht).2
    simpa using this
  · intro p hp pr hpr
    rcases List.mem_map.1 hp with ⟨q, _, rfl⟩
    have := (List.mem_filter.1 hpr).2
    simpa using this
  · intro p hp c hc
    rcases List.mem_map.1 hp with ⟨q, _, rfl⟩
    have := (List.mem_filter.1 hc).2
    simpa using this
  · intro p hp t ht htu
    rw [count_clearUserData_flatten s u _ _
      (count_clearRoomEvents_transport u t.id)]
    have hT' : ((s.map (fun p =>
        p.2.transports.map (fun t => t.id))).flatten).Nodup := hT
    exact sum_filtered_count_eq_one s
      (fun p => p.2.transports.map (fun t => t.id))
      (fun p => (p.2.transports.filter (fun t => t.uid == u)).map
        (fun t => t.id))
      (fun p => List.Sublist.map _ (List.filter_sublist _)) hT' p hp t.id
      (List.mem_map.2 ⟨t, List.mem_filter.2 ⟨ht, by simp [htu]⟩, rfl⟩)
  · intro p hp pr hpr hpru
    rw [count_clearUserData_flatten s u _ _
      (count_clearRoomEvents_producer u pr.id)]
    have hP' : ((s.map (fun p =>
        p.2.producers.map (fun pr => pr.id))).flatten).Nodup := hP
    exact sum_filtered_count_eq_one s
      (fun p => p.2.producers.map (fun pr => pr.id))
      (fun p => (p.2.producers.filter (fun pr => pr.uid == u)).map
        (fun pr => pr.id))
      (fun p => List.Sublist.map _ (List.filter_sublist _)) hP' p hp pr.id
      (List.mem_map.2 ⟨pr, List.mem_filter.2 ⟨hpr, by simp [hpru]⟩, rfl⟩)
  · intro p hp c hc hcu
    rw [count_clearUserData_flatten s u _ _
      (count_clearRoomEvents_consumer u c.id)]
    have hC' : ((s.map (fun p =>
        p.2.consumers.map (fun c => c.id))).flatten).Nodup := hC
    exact sum_filtered_count_eq_one s
      (fun p => p.2.consumers.map (fun c => c.id))
      (fun p => (p.2.consumers.filter (fun c => c.uid == u)).map
        (fun c => c.id))
      (fun p => List.Sublist.map _ (List.filter_sublist _)) hC' p hp c.id
      (List.mem_map.2 ⟨c, List.mem_filter.2 ⟨hc, by simp [hcu]⟩, rfl⟩)

/-- Witness for C4 at a concrete registry where uid 20 owns a transport, a
producer and a consumer. -/
theorem clearUserData_spec_witness :
    (clearUserData c4State 20).2.count (Event.closeProducer 7) = 1 :=
  ((clearUserData_spec c4State 20 (by decide) (by decide) (by decide)).2.2.2.2.1
    (1, c4Room) (by decide) ⟨20, 7, 0, MediaKind.audio⟩ (by decide) (by decide))

lemma setAdd_mem (l : List Uid) (u' u : Uid) :
    u ∈ setAdd l u' ↔ u = u' ∨ u ∈ l := by
  unfold setAdd
  by_cases h : u' ∈ l
  · simp only [if_pos h]
    constructor
    · exact Or.inr
    · rintro (rfl | hu)
      · exact h
      · exact hu
  · simp [if_neg h, List.mem_append]
    tauto

lemma setAdd_nodup {l : List Uid} (u : Uid) (h : l.Nodup) :
    (setAdd l u).Nodup := by
  unfold setAdd
  by_cases hu : u ∈ l
  · simpa [hu] using h
  · simp only [if_neg hu]
    exact List.Nodup.append h (List.nodup_singleton u)
      (fun a ha hb => hu (by simp at hb; rwa [hb] at ha))

lemma exists_lookup_mem_iff {s : State} {r : RoomId} {room : Room}
    (h : lookupRoom s r = some room) (u : Uid) :
    (∃ room0, lookupRoom s r = some room0 ∧ u ∈ room0.participants)
      ↔ u ∈ room.participants := by
  constructor
  · rintro ⟨room0, h0, hu⟩
    have he : room = room0 := Option.some.inj (h.symm.trans h0)
    rw [he]
    exact hu
  · intro hu
    exact ⟨room, h, hu⟩

lemma exists_lookup_none {s : State} {r : RoomId} {u : Uid}
    (h : lookupRoom s r = none) :
    ¬ ∃ room0, lookupRoom s r = some room0 ∧ u ∈ room0.participants := by
  rintro ⟨room0, h0, -⟩
  rw [h] at h0
  cases h0

lemma lookupRoom_updateRoom_none {s : State} {r r' : RoomId} {f : Room → Room}
    (h : lookupRoom s r = none) :
    lookupRoom (updateRoom s r' f) r = none := by
  by_cases hr : r = r'
  · subst hr
    rw [lookupRoom_updateRoom_self, h]
    rfl
  · rw [lookupRoom_updateRoom_ne _ _ _ _ hr, h]

lemma lookupRoom_clearUserData (s : State) (u : Uid) (r : RoomId) :
    lookupRoom (clearUserData s u).1 r
      = (lookupRoom s r).map (clearRoomUser u) :=
  lookupRoom_map_value s r (clearRoomUser u)

lemma clearRoomUser_participants (u : Uid) (rm : Room) :
    (clearRoomUser u rm).participants = rm.participants := rfl

lemma leaveGo_lookup_none (u : Uid) (keys : List RoomId) :
    ∀ s r, lookupRoom s r = none →
      lookupRoom (leaveGo u keys s).1 r = none := by
  induction keys with
  | nil => intro s r h; simpa [leaveGo] using h
  | cons k rest ih =>
    intro s r h
    cases hk : lookupRoom s k with
    | none => simpa [leaveGo, hk] using ih s r h
    | some roomK =>
      by_cases hu : u ∈ roomK.participants
      · have h1 : lookupRoom (updateRoom s k
            (fun rm => { rm with participants := rm.participants.erase u })) r
            = none := lookupRoom_updateRoom_none h
        have h2 : lookupRoom (clearUserData (updateRoom s k
            (fun rm => { rm with participants := rm.participants.erase u })) u).1 r
            = none := by
          rw [lookupRoom_clearUserData, h1]
          rfl
        simpa [leaveGo, hk, hu] using ih _ r h2
      · simpa [leaveGo, hk, hu] using ih s r h

lemma leaveGo_parts (u : Uid) :
    ∀ (keys : List RoomId), keys.Nodup →
      ∀ s r room, lookupRoom s r = some room →
        ∃ room', lookupRoom (leaveGo u keys s).1 r = some room'
          ∧ room'.participants
              = (if r ∈ keys then room.participants.erase u
                 else room.participants) := by
  intro keys
  induction keys with
  | nil =>
    intro _ s r room h
    exact ⟨room, by simpa [leaveGo] using h, by simp⟩
  | cons k rest ih =>
    intro hnd s r room h
    have hknotin : k ∉ rest := (List.nodup_cons.1 hnd).1
    have hrest : rest.Nodup := (List.nodup_cons.1 hnd).2
    cases hk : lookupRoom s k with
    | none =>
      have hkr : k ≠ r := fun he => by rw [he, h] at hk; cases hk
      obtain ⟨room', h', hp'⟩ := ih hrest s r room h
      refine ⟨room', by simpa [leaveGo, hk] using h', ?_⟩
      rw [hp']
      simp [List.mem_cons, Ne.symm hkr]
    | some roomK =>
      by_cases hu : u ∈ roomK.participants
      · set s1 := updateRoom s k
          (fun rm => { rm with participants := rm.participants.erase u }) with hs1
        by_cases hkr : k = r
        · subst hkr
          have he : roomK = room := Option.some.inj (hk.symm.trans h)
          subst he
          have h1 : lookupRoom s1 k
              = some { roomK with participants := roomK.participants.erase u } := by
            rw [hs1, lookupRoom_updateRoom_self, hk]
            rfl
          have h2 : lookupRoom (clearUserData s1 u).1 k
              = some (clearRoomUser u
                  { roomK with participants := roomK.participants.erase u }) := by
            rw [lookupRoom_clearUserData, h1]
            rfl
          obtain ⟨room', h', hp'⟩ := ih hrest _ k _ h2
          refine ⟨room', by simpa [leaveGo, hk, hu] using h', ?_⟩
          rw [hp']
          simp [if_neg hknotin, clearRoomUser_participants]
        · have h1 : lookupRoom s1 r = some room := by
            rw [hs1, lookupRoom_updateRoom_ne _ _ _ _ (fun he => hkr he.symm)]
            exact h
          have h2 : lookupRoom (clearUserData s1 u).1 r
              = some (clearRoomUser u room) := by
            rw [lookupRoom_clearUserData, h1]
            rfl
          obtain ⟨room', h', hp'⟩ := ih hrest _ r _ h2
          refine ⟨room', by simpa [leaveGo, hk, hu] using h', ?_⟩
          rw [hp']
          simp [clearRoomUser_participants, List.mem_cons, Ne.symm hkr]
      · by_cases hkr : k = r
        · subst hkr
          have he : roomK = room := Option.some.inj (hk.symm.trans h)
          subst he
          obtain ⟨room', h', hp'⟩ := ih hrest s k _ h
          refine ⟨room', by simpa [leaveGo, hk, hu] using h', ?_⟩
          rw [hp']
          simp [if_neg hknotin, List.erase_of_not_mem hu]
        · obtain ⟨room', h', hp'⟩ := ih hrest s r room h
          refine ⟨room', by simpa [leaveGo, hk, hu] using h', ?_⟩
          rw [hp']
          simp [List.mem_cons, Ne.symm hkr]

lemma leaveUser_parts {s : State} (u : Uid) (hkeys : keysNodup s)
    {r : RoomId} {room : Room} (h : lookupRoom s r = some room) :
    ∃ room', lookupRoom (leaveUser s u).1 r = some room'
      ∧ room'.participants = room.participants.erase u := by
  obtain ⟨room', h', hp'⟩ := leaveGo_parts u (s.map Prod.fst) hkeys s r room h
  exact ⟨room', h', by rwa [if_pos (lookupRoom_mem_keys h)] at hp'⟩

lemma partsNodup_updateRoom {s : State} {r : RoomId} {f : Room → Room}
    (hf : ∀ rm, rm.participants.Nodup → (f rm).participants.Nodup)
    (h : partsNodup s) : partsNodup (updateRoom s r f) := by
  induction s with
  | nil => intro p hp; simp [updateRoom] at hp
  | cons q rest ih =>
    obtain ⟨a, b⟩ := q
    have hb : b.participants.Nodup := h (a, b) (by simp)
    have hrest : partsNodup rest := fun p hp => h p (List.mem_cons_of_mem _ hp)
    intro p hp
    by_cases ha : a = r
    · rw [show updateRoom ((a, b) :: rest) r f
          = (a, f b) :: updateRoom rest r f from by simp [updateRoom, ha]] at hp
      rcases List.mem_cons.1 hp with rfl | hp
      · exact hf b hb
      · exact ih hrest p hp
    · rw [show updateRoom ((a, b) :: rest) r f
          = (a, b) :: updateRoom rest r f from by simp [updateRoom, ha]] at hp
      rcases List.mem_cons.1 hp with rfl | hp
      · exact hb
      · exact ih hrest p hp

lemma partsNodup_clearUserData {s : State} (u : Uid)
    (h : partsNodup s) : partsNodup (clearUserData s u).1 := by
  intro p hp
  rcases List.mem_map.1 hp with ⟨q, hq, rfl⟩
  exact h q hq

lemma partsNodup_leaveGo {u : Uid} (keys : List RoomId) :
    ∀ s, partsNodup s → partsNodup (leaveGo u keys s).1 := by
  induction keys with
  | nil => intro s h; simpa [leaveGo] using h
  | cons k rest ih =>
    intro s h
    cases hk : lookupRoom s k with
    | none => simpa [leaveGo, hk] using ih s h
    | some roomK =>
      by_cases hu : u ∈ roomK.participants
      · have h1 : partsNodup (updateRoom s k
            (fun rm => { rm with participants := rm.participants.erase u })) :=
          partsNodup_updateRoom (fun rm hrm => hrm.erase u) h
        have h2 := partsNodup_clearUserData u h1
        simpa [leaveGo, hk, hu] using ih _ h2
      · simpa [leaveGo, hk, hu] using ih s h

lemma partsNodup_removeRoom {s : State} (r : RoomId)
    (h : partsNodup s) : partsNodup (removeRoom s r) := by
  induction s with
  | nil => intro p hp; simp [removeRoom] at hp
  | cons q rest ih =>
    obtain ⟨a, b⟩ := q
    have hb : b.participants.Nodup := h (a, b) (by simp)
    have hrest : partsNodup rest := fun p hp => h p (List.mem_cons_of_mem _ hp)
    intro p hp
    by_cases ha : a = r
    · rw [show removeRoom ((a, b) :: rest) r = removeRoom rest r from by
        simp [removeRoom, ha]] at hp
      exact ih hrest p hp
    · rw [show removeRoom ((a, b) :: rest) r = (a, b) :: removeRoom rest r from by
        simp [removeRoom, ha]] at hp
      rcases List.mem_cons.1 hp with rfl | hp
      · exact hb
      · exact ih hrest p hp

lemma removeRoom_sublist (s : State) (r : RoomId) :
    List.Sublist (removeRoom s r) s := by
  induction s with
  | nil => simp [removeRoom]
  | cons q rest ih =>
    obtain ⟨a, b⟩ := q
    by_cases ha : a = r
    · rw [show removeRoom ((a, b) :: rest) r = removeRoom rest r from by
        simp [removeRoom, ha]]
      exact List.Sublist.cons (a, b) ih
    · rw [show removeRoom ((a, b) :: rest) r = (a, b) :: removeRoom rest r from by
        simp [removeRoom, ha]]
      exact List.Sublist.cons₂ (a, b) ih

lemma closeRoomE_sublist (s : State) (r : RoomId) :
    List.Sublist (closeRoomE s r).1 s := by
  cases hk : lookupRoom s r with
  | none => simp [closeRoomE, hk]
  | some room => simpa [closeRoomE, hk] using removeRoom_sublist s r

lemma cleanNoHostGo_sublist (keys : List RoomId) :
    ∀ s, List.Sublist (cleanNoHostGo keys s).1 s := by
  induction keys with
  | nil => intro s; simp [cleanNoHostGo]
  | cons k rest ih =>
    intro s
    cases hk : lookupRoom s k with
    | none => simpa [cleanNoHostGo, hk] using ih s
    | some roomK =>
      by_cases hkin : roomK.creatorUid ∈ roomK.participants
      · simpa [cleanNoHostGo, hk, hkin] using ih s
      · have h1 := ih (closeRoomE s k).1
        have h2 := closeRoomE_sublist s k
        simpa [cleanNoHostGo, hk, hkin] using h1.trans h2

lemma cleanEmptyGo_sublist (keys : List RoomId) :
    ∀ s, List.Sublist (cleanEmptyGo keys s).1 s := by
  induction keys with
  | nil => intro s; simp [cleanEmptyGo]
  | cons k rest ih =>
    intro s
    cases hk : lookupRoom s k with
    | none => simpa [cleanEmptyGo, hk] using ih s
    | some roomK =>
      by_cases hkz : roomK.participants.length = 0
      · have h1 := ih (closeRoomE s k).1
        have h2 := closeRoomE_sublist s k
        simpa [cleanEmptyGo, hk, hkz] using h1.trans h2
      · simpa [cleanEmptyGo, hk, hkz] using ih s

lemma partsNodup_step {s : State} (op : Op)
    (h : partsNodup s) : partsNodup (step s op) := by
  cases op with
  | createRoom rc c =>
    cases hk : lookupRoom s rc with
    | some room => simpa [step, stepE, createRoom, hk] using h
    | none =>
      intro p hp
      rw [show step s (Op.createRoom rc c) = s ++ [(rc, newRoom c 0 0)] from by
        simp [step, stepE, createRoom, hk]] at hp
      rcases List.mem_append.1 hp with hp | hp
      · exact h p hp
      · simp at hp
        rw [hp]
        simp [newRoom]
  | join rj uj =>
    cases hk : lookupRoom s rj with
    | none => simpa [step, stepE, joinRoom, hk] using h
    | some room =>
      rw [show step s (Op.join rj uj) = updateRoom s rj
          (fun rm => { rm with participants := setAdd rm.participants uj }) from by
        simp [step, stepE, joinRoom, hk]]
      exact partsNodup_updateRoom (fun rm hrm => setAdd_nodup uj hrm) h
  | leave ul =>
    exact partsNodup_leaveGo _ s h
  | sweepFire =>
    intro p hp
    have h1 : List.Sublist (step s Op.sweepFire)
        ((cleanNoHostGo (s.map Prod.fst) s).1) := by
      simpa [step, stepE, sweepE, cleanNoHostRooms, cleanEmptyRooms]
        using cleanEmptyGo_sublist _ _
    have h2 := cleanNoHostGo_sublist (s.map Prod.fst) s
    exact h p ((h1.trans h2).subset hp)

lemma partsNodup_runFrom (t : List Op) :
    ∀ s, partsNodup s → partsNodup (runFrom s t) := by
  induction t with
  | nil => intro s h; simpa [runFrom] using h
  | cons op t ih => intro s h; exact ih _ (partsNodup_step op h)

lemma updateRoom_keys (s : State) (r : RoomId) (f : Room → Room) :
    (updateRoom s r f).map Prod.fst = s.map Prod.fst := by
  induction s with
  | nil => rfl
  | cons q rest ih =>
    obtain ⟨a, b⟩ := q
    by_cases ha : a = r
    · simp [updateRoom, ha, ih]
    · simp [updateRoom, ha, ih]

lemma clearUserData_keys (s : State) (u : Uid) :
    ((clearUserData s u).1).map Prod.fst = s.map Prod.fst := by
  show (s.map fun p => (p.1, clearRoomUser u p.2)).map Prod.fst = _
  rw [List.map_map]
  rfl

lemma leaveGo_keys (u : Uid) (keys : List RoomId) :
    ∀ s, ((leaveGo u keys s).1).map Prod.fst = s.map Prod.fst := by
  induction keys with
  | nil => intro s; simp [leaveGo]
  | cons k rest ih =>
    intro s
    cases hk : lookupRoom s k with
    | none => simpa [leaveGo, hk] using ih s
    | some roomK =>
      by_cases hu : u ∈ roomK.participants
      · have h1 := ih (clearUserData (updateRoom s k
          (fun rm => { rm with participants := rm.participants.erase u })) u).1
        rw [clearUserData_keys, updateRoom_keys] at h1
        simpa [leaveGo, hk, hu] using h1
      · simpa [leaveGo, hk, hu] using ih s

lemma keysNodup_step {s : State} (op : Op)
    (h : keysNodup s) : keysNodup (step s op) := by
  cases op with
  | createRoom rc c =>
    cases hk : lookupRoom s rc with
    | some room => simpa [step, stepE, createRoom, hk] using h
    | none =>
      have hnotin : rc ∉ s.map Prod.fst := lookupRoom_eq_none_iff.1 hk
      rw [keysNodup, show step s (Op.createRoom rc c)
          = s ++ [(rc, newRoom c 0 0)] from by simp [step, stepE, createRoom, hk],
        List.map_append]
      exact List.Nodup.append h (List.nodup_singleton rc)
        (fun a ha hb => hnotin (by simp at hb; rwa [hb] at ha))
  | join rj uj =>
    cases hk : lookupRoom s rj with
    | none => simpa [step, stepE, joinRoom, hk] using h
    | some room =>
      rw [keysNodup, show step s (Op.join rj uj) = updateRoom s rj
          (fun rm => { rm with participants := setAdd rm.participants uj }) from by
        simp [step, stepE, joinRoom, hk], updateRoom_keys]
      exact h
  | leave ul =>
    rw [keysNodup, show step s (Op.leave ul) = (leaveGo ul (s.map Prod.fst) s).1
        from rfl, leaveGo_keys]
    exact h
  | sweepFire =>
    have h1 : List.Sublist (step s Op.sweepFire)
        ((cleanNoHostGo (s.map Prod.fst) s).1) := by
      simpa [step, stepE, sweepE, cleanNoHostRooms, cleanEmptyRooms]
        using cleanEmptyGo_sublist _ _
    have h2 := cleanNoHostGo_sublist (s.map Prod.fst) s
    exact List.Nodup.sublist (List.Sublist.map Prod.fst (h1.trans h2)) h

lemma keysNodup_runFrom (t : List Op) :
    ∀ s, keysNodup s → keysNodup (runFrom s t) := by
  induction t with
  | nil => intro s h; simpa [runFrom] using h
  | cons op t ih => intro s h; exact ih _ (keysNodup_step op h)

lemma runFrom_parts_char (t : List Op) :
    ∀ s : State, okOps s t = true → Op.sweepFire ∉ t →
      keysNodup s → partsNodup s →
      ∀ r room u, lookupRoom (runFrom s t) r = some room →
        (u ∈ room.participants ↔
          (lastJL t r u = some true ∨
            (lastJL t r u = none
              ∧ ∃ room0, lookupRoom s r = some room0
                  ∧ u ∈ room0.participants))) := by
  induction t with
  | nil =>
    intro s _ _ _ _ r room u h
    simp only [runFrom] at h
    constructor
    · intro hu
      exact Or.inr ⟨rfl, room, h, hu⟩
    · rintro (hl | ⟨-, hex⟩)
      · simp [lastJL] at hl
      · exact (exists_lookup_mem_iff h u).1 hex
  | cons op t ih =>
    intro s hok hns hkn hpn r room u h
    simp only [okOps, Bool.and_eq_true] at hok
    have hok' := hok.2
    have hcond := hok.1
    have hns' : Op.sweepFire ∉ t := fun hm => hns (List.mem_cons_of_mem _ hm)
    have hkn' := keysNodup_step op hkn
    have hpn' := partsNodup_step op hpn
    simp only [runFrom] at h
    have IH := ih (step s op) hok' hns' hkn' hpn' r room u h
    rw [IH]
    cases hjl : lastJL t r u with
    | some b =>
      have hhead : lastJL (op :: t) r u = some b := by simp [lastJL, hjl]
      rw [hhead]
      constructor
      · rintro (hl | ⟨hl, -⟩)
        · exact Or.inl hl
        · cases hl
      · rintro (hl | ⟨hl, -⟩)
        · exact Or.inl hl
        · cases hl
    | none =>
      cases op with
      | sweepFire => exact absurd (List.mem_cons_self _ _) hns
      | createRoom rc c =>
        have hhead : lastJL (Op.createRoom rc c :: t) r u = none := by
          simp [lastJL, hjl]
        rw [hhead]
        have hAB : (∃ room0,
              lookupRoom (step s (Op.createRoom rc c)) r = some room0
                ∧ u ∈ room0.participants)
            ↔ (∃ room0, lookupRoom s r = some room0
                ∧ u ∈ room0.participants) := by
          cases hc : lookupRoom s rc with
          | some roomc =>
            rw [show step s (Op.createRoom rc c) = s from by
              simp [step, stepE, createRoom, hc]]
          | none =>
            rw [show step s (Op.createRoom rc c)
                = s ++ [(rc, newRoom c 0 0)] from by
              simp [step, stepE, createRoom, hc]]
            cases hr0 : lookupRoom s r with
            | some room0 => rw [lookupRoom_append_some _ hr0]
            | none =>
              rw [lookupRoom_append_none _ hr0]
              by_cases hrc : rc = r
              · subst hrc
                simp [lookupRoom, newRoom]
              · simp [lookupRoom, hrc]
        constructor
        · rintro (hl | ⟨-, hex⟩)
          · cases hl
          · exact Or.inr ⟨rfl, hAB.1 hex⟩
        · rintro (hl | ⟨-, hex⟩)
          · cases hl
          · exact Or.inr ⟨rfl, hAB.2 hex⟩
      | join rj uj =>
        have hsome : (lookupRoom s rj).isSome = true := hcond
        obtain ⟨roomJ, hjr⟩ := Option.isSome_iff_exists.1 hsome
        have hstep : step s (Op.join rj uj) = updateRoom s rj
            (fun rm => { rm with participants := setAdd rm.participants uj }) := by
          simp [step, stepE, joinRoom, hjr]
        by_cases hrr : rj = r
        · have hlook : lookupRoom (step s (Op.join rj uj)) r
              = some { roomJ with participants := setAdd roomJ.participants uj } := by
            rw [hstep, ← hrr, lookupRoom_updateRoom_self, hjr]
            rfl
          by_cases huu : uj = u
          · have hhead : lastJL (Op.join rj uj :: t) r u = some true := by
              simp [lastJL, hjl, hrr, huu]
            rw [hhead]
            constructor
            · intro _
              exact Or.inl rfl
            · intro _
              refine Or.inr ⟨rfl, _, hlook, ?_⟩
              show u ∈ setAdd roomJ.participants uj
              exact (setAdd_mem _ _ _).2 (Or.inl huu.symm)
          · have hhead : lastJL (Op.join rj uj :: t) r u = none := by
              simp [lastJL, hjl, huu]
            rw [hhead]
            have hmem : ∀ room1,
                lookupRoom (step s (Op.join rj uj)) r = some room1 →
                (u ∈ room1.participants ↔ u ∈ roomJ.participants) := by
              intro room1 h1
              have he := Option.some.inj (hlook.symm.trans h1)
              rw [← he]
              show u ∈ setAdd roomJ.participants uj ↔ _
              rw [setAdd_mem]
              constructor
              · rintro (rfl | hu)
                · exact absurd rfl huu
                · exact hu
              · exact Or.inr
            constructor
            · rintro (hl | ⟨-, room1, h1, hu1⟩)
              · cases hl
              · exact Or.inr ⟨rfl, roomJ, hrr ▸ hjr, (hmem room1 h1).1 hu1⟩
            · rintro (hl | ⟨-, room1, h1, hu1⟩)
              · cases hl
              · have he := Option.some.inj ((hrr ▸ hjr : lookupRoom s r
                    = some roomJ).symm.trans h1)
                rw [← he] at hu1
                refine Or.inr ⟨rfl, _, hlook, (hmem _ hlook).2 hu1⟩
        · have hhead : lastJL (Op.join rj uj :: t) r u = none := by
            simp [lastJL, hjl, hrr]
          rw [hhead]
          have hstepr : lookupRoom (step s (Op.join rj uj)) r = lookupRoom s r := by
            rw [hstep, lookupRoom_updateRoom_ne _ _ _ _ (fun he => hrr he.symm)]
          rw [hstepr]
      | leave ul =>
        have hstep : step s (Op.leave ul) = (leaveUser s ul).1 := rfl
        cases hr0 : lookupRoom s r with
        | none =>
          have hnone : lookupRoom (step s (Op.leave ul)) r = none := by
            rw [hstep]
            exact leaveGo_lookup_none ul _ s r hr0
          by_cases huu : ul = u
          · have hhead : lastJL (Op.leave ul :: t) r u = some false := by
              simp [lastJL, hjl, huu]
            rw [hhead]
            constructor
            · rintro (hl | ⟨-, hex⟩)
              · cases hl
              · exact absurd hex (exists_lookup_none hnone)
            · rintro (hl | ⟨hl, -⟩) <;> cases hl
          · have hhead : lastJL (Op.leave ul :: t) r u = none := by
              simp [lastJL, hjl, huu]
            rw [hhead]
            constructor
            · rintro (hl | ⟨-, hex⟩)
              · cases hl
              · exact absurd hex (exists_lookup_none hnone)
            · rintro (hl | ⟨-, room1, h1, -⟩)
              · cases hl
              · cases h1
        | some room0 =>
          obtain ⟨room', h', hp'⟩ := leaveUser_parts ul hkn hr0
          have h'' : lookupRoom (step s (Op.leave ul)) r = some room' := h'
          by_cases huu : ul = u
          · have hhead : lastJL (Op.leave ul :: t) r u = some false := by
              simp [lastJL, hjl, huu]
            rw [hhead]
            have hnd : room0.participants.Nodup := hpn (r, room0) (lookupRoom_mem hr0)
            constructor
            · rintro (hl | ⟨-, room1, h1, hu1⟩)
              · cases hl
              · have he := Option.some.inj (h''.symm.trans h1)
                rw [← he, hp', huu] at hu1
                exact absurd hu1 hnd.not_mem_erase
            · rintro (hl | ⟨hl, -⟩) <;> cases hl
          · have hhead : lastJL (Op.leave ul :: t) r u = none := by
              simp [lastJL, hjl, huu]
            rw [hhead]
            have hmemiff : u ∈ room'.participants ↔ u ∈ room0.participants := by
              rw [hp']
              exact List.mem_erase_of_ne (fun he => huu he.symm)
            constructor
            · rintro (hl | ⟨-, room1, h1, hu1⟩)
              · cases hl
              · have he := Option.some.inj (h''.symm.trans h1)
                rw [← he] at hu1
                exact Or.inr ⟨rfl, room0, rfl, hmemiff.1 hu1⟩
            · rintro (hl | ⟨-, room1, h1, hu1⟩)
              · cases hl
              · have he := Option.some.inj h1
                rw [← he] at hu1
                exact Or.inr ⟨rfl, room', h'', hmemiff.2 hu1⟩

/-- C7.  For every sweep-free well-formed trace of createRoom/join/leave
operations, a user belongs to a room's participant set exactly when the most
recent join/leave touching that user and room was a join, and the
participant set never contains duplicate entries. -/
theorem participants_last_join_leave (t : List Op) (r : RoomId) (u : Uid)
    (room : Room) (hok : okOps [] t = true) (hns : Op.sweepFire ∉ t)
    (h : lookupRoom (run t) r = some room) :
    (u ∈ room.participants ↔ lastJL t r u = some true)
  ∧ room.participants.Nodup := by
  constructor
  · have hchar := runFrom_parts_char t [] hok hns
      (by simp [keysNodup]) (fun p hp => absurd hp (List.not_mem_nil p))
      r room u h
    rw [hchar]
    constructor
    · rintro (hl | ⟨-, room0, h0, -⟩)
      · exact hl
      · cases h0
    · exact Or.inl
  · exact partsNodup_runFrom t [] (fun p hp => absurd hp (List.not_mem_nil p))
      (r, room) (lookupRoom_mem h)

/-- Witness for C7: after `c7Trace` (double join, leave, rejoin of uid 20),
uid 20 is a participant of room 1 and the participant set is
duplicate-free. -/
theorem participants_last_join_leave_witness :
    20 ∈ c7Room.participants ∧ c7Room.participants.Nodup :=
  ⟨(participants_last_join_leave c7Trace 1 20 c7Room (by decide) (by decide)
      (by decide)).1.2 (by decide),
   (participants_last_join_leave c7Trace 1 20 c7Room (by decide) (by decide)
      (by decide)).2⟩

end FlowServer
